import Mathlib

/-!
Shallow embedding of the vpass secret manager core (Rust) in Lean 4.

Conventions of the embedding:
* `DateTime<Utc>` timestamps are modelled as `Nat` (only ordering and
  equality of timestamps are ever used by the code).
* `ItemId(Uuid)` is modelled as `Nat`; `Uuid::new_v4()` values and
  `Utc::now()` values are external randomness/clock inputs, so the
  corresponding Book operations take them as explicit arguments.
* Rust `HashSet` is modelled as `Finset`; its unspecified iteration order
  is modelled by `Finset.toList` (ascending); all theorems exercise the
  iteration-order-dependent functions only where the choice is unique.
* Fallible Rust code returns `Except`; a Rust `panic!` / `unreachable!` /
  out-of-range slice / `.unwrap()` failure is modelled by the dedicated
  error value `Error.panicked`, which models process abort.
-/

set_option maxRecDepth 40000

namespace VPass

/-- Instance: equality of `Except` values is decidable componentwise. -/
instance instDecidableEqExcept {ε α : Type} [DecidableEq ε] [DecidableEq α] :
    DecidableEq (Except ε α) := fun x y =>
  match x, y with
  | .ok a, .ok b =>
    if h : a = b then isTrue (by rw [h]) else isFalse (fun hc => h (Except.ok.inj hc))
  | .ok _, .error _ => isFalse (fun hc => Except.noConfusion hc)
  | .error _, .ok _ => isFalse (fun hc => Except.noConfusion hc)
  | .error e, .error f =>
    if h : e = f then isTrue (by rw [h]) else isFalse (fun hc => h (Except.error.inj hc))

/-- Model of `DateTime<Utc>`: only ordering/equality are used by the code. -/
abbrev Time := Nat

/-- Model of `ItemId(Uuid)`: an opaque identifier with equality. -/
abbrev ItemId := Nat

/-- Model of `backend::book::Item`: name, optional password (`Password` is a
plain-string newtype), a `HashSet` of tags and a list of notes. -/
structure Item where
  name : String
  password : Option String
  tags : Finset String
  notes : List String
deriving DecidableEq

/-- Model of `backend::book::Event`. -/
inductive Event where
  | create (id : ItemId)
  | update (id : ItemId) (item : Item)
  | remove (id : ItemId)
deriving DecidableEq

/-- Model of `backend::book::EventFrame`: an event and its timestamp. -/
structure EventFrame where
  time : Time
  event : Event
deriving DecidableEq

/-- Model of `Event::creates_id`. -/
def Event.creates_id : Event → Option ItemId
  | .create id => some id
  | _ => none

/-- Model of `Event::removes_id`. -/
def Event.removes_id : Event → Option ItemId
  | .remove id => some id
  | _ => none

/-- Model of `EventFrame::creates_id`. -/
def EventFrame.creates_id (ef : EventFrame) : Option ItemId :=
  ef.event.creates_id

/-- Model of `EventFrame::removes_id`. -/
def EventFrame.removes_id (ef : EventFrame) : Option ItemId :=
  ef.event.removes_id

/-- Model of `backend::book::Book`: the ordered event log plus the immutable
creation timestamp. -/
structure Book where
  events : List EventFrame
  created : Time
deriving DecidableEq

/-- Model of `VersionMergeError`. -/
inductive VersionMergeError where
  | differentOrigins
deriving DecidableEq

/-- Model of `sync::Error` (the provider error taxonomy). Payloads that are
irrelevant to control flow (http errors, json values) are dropped. -/
inductive SyncError where
  | apiRateLimit (t : Time)
  | noSuchKey (key : String)
  | http
  | httpStatus (code : Nat)
  | io
  | invalidCredentials (msg : String)
  | misc
  | configurationItem
  | invalidUpdateKey
  | noRemoteSet
  | invalidRemote
  | insufficientSecurity (msg : String)
  | keyAlreadyExists (key : String)
deriving DecidableEq

/-- Model of `cli::error::Error`, restricted to the constructors reachable
from the embedded operations, plus `panicked` which models a Rust process
abort (`panic!`, `unreachable!`, failed `unwrap`/`expect`, out-of-range
slice index). -/
inductive Error where
  | ioErr
  | sync (e : SyncError)
  | json
  | bincode
  | base64Decode
  | bookVersionMergeError (e : VersionMergeError)
  | vaultCorrupted
  | wrongPassword
  | itemAlreadyExists (name : String)
  | noSuchItem (name : String)
  | synchronizationTransferString
  | synchronizationTransferStringVersion (major : Nat) (minor : Nat)
  | panicked
deriving DecidableEq

/-- Model of `impl From<sync::Error> for cli::Error`: `Io` unwraps to
`Error::Io`, everything else is wrapped in `Error::Sync`. -/
def Error.ofSync : SyncError → Error
  | .io => .ioErr
  | e => .sync e

/-- Model of `VResult<T>`. -/
abbrev VResult (α : Type) := Except Error α

/-- Model of `Book::all_ids`: every id that has a `Create` event. The Rust
`HashSet` (whose iteration order is unspecified) is modelled as a
deduplicated list in first-occurrence order. -/
def Book.all_ids (b : Book) : List ItemId :=
  (b.events.filterMap EventFrame.creates_id).dedup

/-- Model of `Book::removed_ids`: every id that has a `Remove` event. -/
def Book.removed_ids (b : Book) : List ItemId :=
  (b.events.filterMap EventFrame.removes_id).dedup

/-- Model of `Book::item_ids`: created ids minus removed ids (`HashSet`
difference, modelled as a filter of the deduplicated creation list). -/
def Book.item_ids (b : Book) : List ItemId :=
  b.all_ids.filter (fun id => id ∉ b.removed_ids)

/-- Auxiliary recursion for `Book::read_item`: scan a (reversed) event list
for the given id. Hitting a `Create` for the id before any `Update` is the
`unreachable!("Item created but not initialized")` abort in the source. -/
def read_item_go (id : ItemId) : List EventFrame → VResult (Option Item)
  | [] => .ok none
  | ef :: rest =>
    match ef.event with
    | .update e_id item => if e_id = id then .ok (some item) else read_item_go id rest
    | .create e_id => if e_id = id then .error .panicked else read_item_go id rest
    | .remove _ => read_item_go id rest

/-- Model of `Book::read_item`: the latest `Update` for the id, found by
scanning the log backwards; `Remove` events are not consulted. -/
def Book.read_item (b : Book) (id : ItemId) : VResult (Option Item) :=
  read_item_go id b.events.reverse

/-- Model of `ItemMetadata`. -/
structure ItemMetadata where
  created : Time
  changed : Time
deriving DecidableEq

/-- Auxiliary fold for `Book::read_item_metadata`: forward scan recording the
last `Create` time and the last `Update` time for the id. -/
def read_item_metadata_go (id : ItemId) (acc : Option Time × Option Time) :
    List EventFrame → Option Time × Option Time
  | [] => acc
  | ef :: rest =>
    match ef.event with
    | .create e_id =>
      read_item_metadata_go id (if e_id = id then (some ef.time, acc.2) else acc) rest
    | .update e_id _ =>
      read_item_metadata_go id (if e_id = id then (acc.1, some ef.time) else acc) rest
    | .remove _ => read_item_metadata_go id acc rest

/-- Model of `Book::read_item_metadata`: `some` only when the id has both a
`Create` and an `Update` event. -/
def Book.read_item_metadata (b : Book) (id : ItemId) : Option ItemMetadata :=
  match read_item_metadata_go id (none, none) b.events with
  | (some c, some ch) => some ⟨c, ch⟩
  | _ => none

/-- Model of `Book::id_items`: each live id paired with its item; the
`.unwrap()` on a live id without an `Update` is a panic. -/
def Book.id_items (b : Book) : VResult (List (ItemId × Item)) :=
  b.item_ids.mapM (fun id => do
    match ← b.read_item id with
    | some item => pure (id, item)
    | none => throw .panicked)

/-- Model of `Book::items`: the live items, in iteration order. -/
def Book.items (b : Book) : VResult (List Item) := do
  pure ((← b.id_items).map Prod.snd)

/-- Model of `Book::find_id_by_name` (via `find_id`): the first live id whose
item has the given name, in iteration order. -/
def Book.find_id_by_name (b : Book) (name : String) : VResult (Option ItemId) := do
  pure (((← b.id_items).find? (fun p => p.2.name = name)).map Prod.fst)

/-- Model of `Book::has_item`. -/
def Book.has_item (b : Book) (name : String) : VResult Bool := do
  pure (← b.find_id_by_name name).isSome

/-- Model of `Book::get_id_by_name`: structured `NoSuchItem` error when the
name is not live. -/
def Book.get_id_by_name (b : Book) (name : String) : VResult ItemId := do
  match ← b.find_id_by_name name with
  | some id => pure id
  | none => throw (.noSuchItem name)

/-- Model of `Book::verify_not_exists`: structured `ItemAlreadyExists` error
when the name is live. -/
def Book.verify_not_exists (b : Book) (name : String) : VResult Unit := do
  if ← b.has_item name then throw (.itemAlreadyExists name) else pure ()

/-- Model of `Book::add`: `Create` followed by `Update`, both stamped with the
same current time. The fresh random id (`Uuid::new_v4`) and the current time
(`Utc::now`) are external inputs, passed explicitly. Returns the new book
with the id. -/
def Book.add (b : Book) (item : Item) (item_id : ItemId) (time : Time) :
    VResult (Book × ItemId) := do
  let () ← b.verify_not_exists item.name
  pure (⟨b.events ++ [⟨time, .create item_id⟩, ⟨time, .update item_id item⟩], b.created⟩,
    item_id)

/-- Model of `Book::remove`: look up the id by name (structured error if
missing), then append a `Remove` event stamped with the current time. -/
def Book.remove (b : Book) (name : String) (time : Time) : VResult Book := do
  let id ← b.get_id_by_name name
  pure ⟨b.events ++ [⟨time, .remove id⟩], b.created⟩

/-- Auxiliary recursion for `Book::differ_index`: walk the zipped event lists
and return the first index whose two frames have different timestamps (the
source compares `s.time != o.time`, not the whole frames; its `enumerate`
counter is expressed by the `+ 1` on the recursive result). -/
def differ_index_go : List EventFrame → List EventFrame → Option Nat
  | s :: ss, o :: os =>
    if s.time ≠ o.time then some 0 else (differ_index_go ss os).map (· + 1)
  | _, _ => none

/-- Model of `Book::differ_index`: first zipped index with differing
timestamps; when the zipped timestamps all agree, `none` if the lists have
equal length, otherwise the shorter length. -/
def Book.differ_index (b other : Book) : Option Nat :=
  match differ_index_go b.events other.events with
  | some i => some i
  | none =>
    if b.events.length = other.events.length then none
    else some (min b.events.length other.events.length)

/-- Model of `Book::has_same_origin`. NOTE: despite its name and its source
doc comment ("Check if two books have same origin"), the body returns whether
the creation times DIFFER (`self.created != other.created`); `merge_versions`
compensates by erroring when this function returns true. -/
def Book.has_same_origin (b other : Book) : Bool :=
  b.created ≠ other.created

/-- The non-strict by-time comparison given by `EventFrame`'s `Ord`
instance, which compares only `time`. -/
def timeLE (a b : EventFrame) : Prop :=
  a.time ≤ b.time

instance : DecidableRel timeLE := fun a b => Nat.decLe a.time b.time

instance : IsTotal EventFrame timeLE :=
  ⟨fun a b => Nat.le_total a.time b.time⟩

instance : IsTrans EventFrame timeLE :=
  ⟨fun _ _ _ h1 h2 => Nat.le_trans h1 h2⟩

/-- Model of `Vec::sort` on the divergent tail: Rust's `sort` is a stable
sort by the `Ord` instance of `EventFrame`. A stable sort's output is
unique, so it is modelled by insertion sort with the non-strict by-time
relation (ties keep input order, earlier elements inserted in front of tied
later ones). -/
def sortEvents (l : List EventFrame) : List EventFrame :=
  l.insertionSort timeLE

/-- Auxiliary fold for `Book::clean`: iterate over a snapshot of the event
list; at each `Remove` whose id was already seen, delete the first occurrence
of that frame (`Vec::remove_item`) from the accumulated list, otherwise
record the id in the seen set. -/
def clean_go : List EventFrame → List EventFrame → List ItemId → List EventFrame
  | [], es, _ => es
  | ef :: rest, es, removed =>
    match ef.removes_id with
    | some id =>
      if id ∈ removed then clean_go rest (es.erase ef) removed
      else clean_go rest es (id :: removed)
    | none => clean_go rest es removed

/-- Model of `Book::clean`: for each id, keep only the first `Remove` event;
later duplicate removes are dropped. -/
def Book.clean (b : Book) : Book :=
  ⟨clean_go b.events b.events [], b.created⟩

/-- Model of `Book::merge_versions`: error when the creation times differ;
otherwise split at `differ_index`, concatenate the two divergent tails
(left's tail first), stably sort the combined tail by timestamp, append it
to the common part and clean; if `differ_index` is `none` return the left
book unchanged. -/
def Book.merge_versions (b : Book) (other : Book) : Except VersionMergeError Book :=
  if b.has_same_origin other then .error .differentOrigins
  else
    match b.differ_index other with
    | some di =>
      Book.clean ⟨b.events.take di ++ sortEvents (b.events.drop di ++ other.events.drop di),
        b.created⟩ |> .ok
    | none => .ok b

/-! ### Vault envelope (`backend/vault.rs`)

The cryptographic primitives (`rust_sodium` password hashing and
`secretbox`, `flate2` gzip, `serde_json`) are external libraries; they are
modelled as ideal primitives: the derived key is an injective function of
(password, salt); sealing is perfectly authenticated (opening succeeds
exactly when nonce and key match, and then returns the sealed plaintext);
compression and serialization form an injective codec. -/

/-- Model of a `pwhash::Salt` (random, supplied externally). -/
abbrev Salt := Nat

/-- Model of a `secretbox::Nonce` (random, supplied externally). -/
abbrev Nonce := Nat

/-- Model of `VaultKey`: the slow password hash is idealized as the injective
pairing of password and salt. -/
structure VaultKey where
  password : String
  salt : Salt
deriving DecidableEq

/-- Model of `VaultKey::new`: derive a key from the password and a fresh
random salt (the salt is an explicit input). -/
def VaultKey.new (password : String) (salt : Salt) : VaultKey :=
  ⟨password, salt⟩

/-- Model of `VaultKey::reconstruct`: re-derive the key from the stored salt
and the supplied password. -/
def VaultKey.reconstruct (password : String) (salt : Salt) : VaultKey :=
  ⟨password, salt⟩

/-- Model of `Vault<T>`. -/
structure Vault (T : Type) where
  content : T
deriving DecidableEq

/-- Model of the compressed serialized plaintext: `serde_json::to_vec`
followed by gzip, an injective codec, represented symbolically. -/
inductive GzJson (T : Type) where
  | gz (v : Vault T)
deriving DecidableEq

/-- Model of `secretbox::seal` output: ideal authenticated encryption
remembers the plaintext, nonce and key symbolically. -/
structure SealedData (T : Type) where
  msg : GzJson T
  nonce : Nonce
  key : VaultKey
deriving DecidableEq

/-- Model of `secretbox::seal`. -/
def secretbox_seal {T : Type} (msg : GzJson T) (nonce : Nonce) (key : VaultKey) :
    SealedData T :=
  ⟨msg, nonce, key⟩

/-- Model of `secretbox::open`: succeeds exactly when the nonce and key match
the ones used to seal (ideal authenticated encryption), returning the sealed
plaintext. -/
def secretbox_open {T : Type} [DecidableEq T] (d : SealedData T) (nonce : Nonce)
    (key : VaultKey) : Option (GzJson T) :=
  if d.nonce = nonce ∧ d.key = key then some d.msg else none

/-- The magic byte `0xd7`. -/
def MAGIC : Nat := 0xd7

/-- The envelope format version. -/
def VERSION : Nat := 0

/-- Model of `EncryptedVault`. -/
structure EncryptedVault (T : Type) where
  magic : Nat
  version : Nat
  salt : Salt
  nonce : Nonce
  data : SealedData T
deriving DecidableEq

/-- Model of `Vault::encrypt`: derive a fresh key (fresh random salt),
generate a fresh random nonce (both explicit inputs), serialize, compress and
seal. -/
def Vault.encrypt {T : Type} [DecidableEq T] (v : Vault T) (password : String)
    (salt : Salt) (nonce : Nonce) : EncryptedVault T :=
  let key := VaultKey.new password salt
  { magic := MAGIC, version := VERSION, salt := key.salt, nonce := nonce,
    data := secretbox_seal (.gz v) nonce key }

/-- Model of `EncryptedVault::decrypt`: re-derive the key from the stored
salt and the supplied password, open the authenticated ciphertext (`None` on
any failure), then decompress and deserialize. In the ideal model an
authenticated plaintext is always a well-formed encoder output, so the
`.expect` aborts on decompression/deserialization are unreachable. -/
def EncryptedVault.decrypt {T : Type} [DecidableEq T] (ev : EncryptedVault T)
    (password : String) : Option (Vault T) :=
  let key := VaultKey.reconstruct password ev.salt
  match secretbox_open ev.data ev.nonce key with
  | some (.gz v) => some v
  | none => none

/-! ### Sync coordinator (`sync/mod.rs`) -/

/-- Model of `UpdateKey` (an opaque byte vector). -/
abbrev UpdateKey := List Nat

/-- Model of the byte vector holding an encrypted vault on the remote:
either the `bincode` encoding of an `EncryptedVault` or arbitrary bytes
that `bincode` cannot decode. -/
inductive VaultBytes where
  | enc (ev : EncryptedVault Book)
  | raw (junk : Nat)
deriving DecidableEq

/-- Model of `crate::decrypt` composed with `EncryptedVault::from_bytes`:
a bincode failure is mapped to `VaultCorrupted` by the caller; a decodable
envelope with wrong magic or version hits the `assert!` aborts in
`from_bytes`; an authentication failure is `WrongPassword`. -/
def decrypt (data : VaultBytes) (password : String) : VResult Book :=
  match data with
  | .raw _ => .error .vaultCorrupted
  | .enc ev =>
    if ev.magic = MAGIC ∧ ev.version = VERSION then
      match ev.decrypt password with
      | some v => .ok v.content
      | none => .error .wrongPassword
    else .error .panicked

/-- Model of `crate::encrypt`: encrypt the book and serialize the envelope
(the fresh salt and nonce are explicit random inputs). -/
def encrypt (password : String) (book : Book) (salt : Salt) (nonce : Nonce) :
    VResult VaultBytes :=
  .ok (.enc ((Vault.mk book).encrypt password salt nonce))

/-- Model of the remote provider (`dyn SyncProvider`) as observed by one
`synchronize` call: the outcome of the single `read(key)` call, and the
outcomes of a subsequent `update`/`create` as functions of their arguments.
This quantifies over every possible provider behavior, including stale
`UpdateKey` rejections and transport failures. -/
structure RemoteBehavior where
  read : Except SyncError (VaultBytes × UpdateKey)
  update : VaultBytes → UpdateKey → Except SyncError Unit
  create : VaultBytes → Except SyncError Unit

/-- Model of `sync::synchronize`: read the remote; if absent, create from
local; if present, decrypt, no-op on equality, otherwise merge, encrypt and
update with the just-read `UpdateKey`, replacing the local book with the
merged book only in the success branch of `update`. The returned pair is
(result, local book after the call). -/
def synchronize (sp : RemoteBehavior) (book : Book) (password : String)
    (salt : Salt) (nonce : Nonce) : VResult Unit × Book :=
  match sp.read with
  | .ok (old_data, update_key) =>
    match decrypt old_data password with
    | .error e => (.error e, book)
    | .ok b_old =>
      if b_old ≠ book then
        match b_old.merge_versions book with
        | .error e => (.error (.bookVersionMergeError e), book)
        | .ok b_new =>
          match encrypt password b_new salt nonce with
          | .error e => (.error e, book)
          | .ok data =>
            match sp.update data update_key with
            | .error e => (.error (Error.ofSync e), book)
            | .ok () => (.ok (), b_new)
      else (.ok (), book)
  | .error (.noSuchKey _) =>
    match encrypt password book salt nonce with
    | .error e => (.error e, book)
    | .ok data =>
      match sp.create data with
      | .error e => (.error (Error.ofSync e), book)
      | .ok () => (.ok (), book)
  | .error e => (.error (Error.ofSync e), book)

/-! ### Transfer codec (`sync/transfer_string.rs`, `sync/config.rs`,
`sync/providers/*`)

Bytes are modelled as `List Nat` (each element < 256 by construction).
Strings crossing the byte boundary are assumed ASCII (every string in the
repository's configuration data is); `str.bytes()` is modelled by the list
of code points. -/

/-- UTF-8 bytes of an ASCII string (model of `str::bytes`). -/
def str_bytes (s : String) : List Nat :=
  s.data.map Char.toNat

/-- ASCII string from bytes: model of `String::from_utf8(..).unwrap()`,
aborting on a non-ASCII byte (multi-byte UTF-8 is not exercised). -/
def bytes_to_ascii (bs : List Nat) : VResult String :=
  if bs.all (· < 128) then .ok ⟨bs.map Char.ofNat⟩ else .error .panicked

/-- Little-endian 4-byte encoding of a `u32` (`u32::to_le_bytes`). -/
def u32_le_bytes (n : Nat) : List Nat :=
  [n % 256, n / 256 % 256, n / 65536 % 256, n / 16777216 % 256]

/-- Little-endian 8-byte encoding of a `u64` (`u64::to_le_bytes`). -/
def u64_le_bytes (n : Nat) : List Nat :=
  [n % 256, n / 256 % 256, n / 65536 % 256, n / 16777216 % 256,
   n / 4294967296 % 256, n / 1099511627776 % 256,
   n / 281474976710656 % 256, n / 72057594037927936 % 256]

/-- `u32::from_le_bytes` of four bytes. -/
def u32_from_le (a b c d : Nat) : Nat :=
  a + 256 * b + 65536 * c + 16777216 * d

/-- `u64::from_le_bytes` of a (length-8) byte list. -/
def u64_from_le (bs : List Nat) : Nat :=
  (bs.zip [1, 256, 65536, 16777216, 4294967296, 1099511627776,
    281474976710656, 72057594037927936]).foldl (fun acc p => acc + p.1 * p.2) 0

/-- Standard base64 alphabet: byte value of the character for sextet `n`. -/
def b64_alphabet_byte (n : Nat) : Nat :=
  if n < 26 then 65 + n
  else if n < 52 then 97 + (n - 26)
  else if n < 62 then 48 + (n - 52)
  else if n = 62 then 43
  else 47

/-- Inverse of the base64 alphabet: sextet of a character byte, `none` for a
byte outside the alphabet. -/
def b64_sextet (c : Nat) : Option Nat :=
  if 65 ≤ c ∧ c ≤ 90 then some (c - 65)
  else if 97 ≤ c ∧ c ≤ 122 then some (c - 97 + 26)
  else if 48 ≤ c ∧ c ≤ 57 then some (c - 48 + 52)
  else if c = 43 then some 62
  else if c = 47 then some 63
  else none

/-- Base64 encoding of a byte list as character bytes (standard alphabet,
padded with `=` = byte 61), model of `base64::encode`. -/
def b64encode_go : List Nat → List Nat
  | [] => []
  | [a] =>
    [b64_alphabet_byte (a / 4), b64_alphabet_byte (a % 4 * 16), 61, 61]
  | [a, b] =>
    [b64_alphabet_byte (a / 4), b64_alphabet_byte (a % 4 * 16 + b / 16),
     b64_alphabet_byte (b % 16 * 4), 61]
  | a :: b :: c :: rest =>
    [b64_alphabet_byte (a / 4), b64_alphabet_byte (a % 4 * 16 + b / 16),
     b64_alphabet_byte (b % 16 * 4 + c / 64), b64_alphabet_byte (c % 64)]
    ++ b64encode_go rest

/-- Model of `base64::encode`, producing characters. -/
def b64encode (bs : List Nat) : List Char :=
  (b64encode_go bs).map Char.ofNat

/-- Base64 decoding of character bytes in groups of four, accepting final
`=` padding; any other shape is a decode error (model of `base64::decode`).
-/
def b64decode_go : List Nat → VResult (List Nat)
  | [] => .ok []
  | c1 :: c2 :: c3 :: c4 :: rest => do
    match b64_sextet c1, b64_sextet c2 with
    | some s1, some s2 =>
      if c3 = 61 ∧ c4 = 61 ∧ rest = [] then pure [s1 * 4 + s2 / 16]
      else
        match b64_sextet c3 with
        | some s3 =>
          if c4 = 61 ∧ rest = [] then
            pure [s1 * 4 + s2 / 16, s2 % 16 * 16 + s3 / 4]
          else
            match b64_sextet c4 with
            | some s4 =>
              pure ([s1 * 4 + s2 / 16, s2 % 16 * 16 + s3 / 4, s3 % 4 * 64 + s4]
                ++ (← b64decode_go rest))
            | none => throw .base64Decode
        | none => throw .base64Decode
    | _, _ => throw .base64Decode
  | _ => throw .base64Decode

/-- Model of `base64::decode` on a character list. -/
def b64decode (cs : List Char) : VResult (List Nat) :=
  b64decode_go (cs.map Char.toNat)

/-- One shift-and-conditionally-xor round of the reflected CRC-16 with
polynomial `0x8408` (the reflection of `0x1021`). -/
def crc16_round (crc : Nat) : Nat :=
  if crc % 2 = 1 then (crc / 2) ^^^ 0x8408 else crc / 2

/-- Model of `crc::crc16::checksum_x25` (CRC-16/X-25: reflected `0x1021`,
init `0xFFFF`, xorout `0xFFFF`). Only internal consistency between `encode`
and `decode` matters to the claims, both of which use this function. -/
def crc16_x25 (data : List Nat) : Nat :=
  0xFFFF ^^^ data.foldl (fun crc b => crc16_round^[8] (crc ^^^ b)) 0xFFFF

/-- Model of `transfer_string::Metadata`. -/
structure Metadata where
  major : Nat
  minor : Nat
  crc16 : Nat
deriving DecidableEq

/-- Model of `Metadata::new`. The running package version
(`CARGO_PKG_VERSION_MAJOR`/`MINOR`, compile-time constants whose manifest is
not part of the sources) is passed as the explicit parameter `ver`. -/
def Metadata.new (ver : Nat × Nat) (data : List Nat) : Metadata :=
  ⟨ver.1, ver.2, crc16_x25 data⟩

/-- Model of `Metadata::check`: note the source condition
`cmp.major != self.major && cmp.minor == self.minor` for the version error.
-/
def Metadata.check (self : Metadata) (ver : Nat × Nat) (data : List Nat) :
    VResult Unit :=
  let cmp := Metadata.new ver data
  if cmp.major ≠ self.major ∧ cmp.minor = self.minor then
    .error (.synchronizationTransferStringVersion cmp.major cmp.minor)
  else if cmp.crc16 ≠ self.crc16 then .error .synchronizationTransferString
  else .ok ()

/-- Model of `bincode::serialize` for `Metadata` (fixed little-endian layout,
4 bytes: `size_of::<Metadata>()`). -/
def metadata_serialize (m : Metadata) : List Nat :=
  [m.major % 256, m.minor % 256, m.crc16 % 256, m.crc16 / 256 % 256]

/-- Model of `bincode::deserialize` for `Metadata` from a 4-byte slice. -/
def metadata_deserialize (bs : List Nat) : VResult Metadata :=
  match bs with
  | [a, b, c, d] => .ok ⟨a, b, c + 256 * d⟩
  | _ => .error .bincode

/-- Model of `serde_json::Value`. Objects model serde's `BTreeMap`: the field
list is kept sorted by key wherever a value is constructed. Numbers are
restricted to integers (the only numbers occurring in provider
configurations). -/
inductive JValue where
  | null
  | bool (b : Bool)
  | num (n : Int)
  | str (s : String)
  | arr (xs : List JValue)
  | obj (fields : List (String × JValue))

/-- Decimal digit bytes of a natural number. -/
def nat_digits (n : Nat) : List Nat :=
  if h : n < 10 then [48 + n]
  else
    have : n / 10 < n := Nat.div_lt_self (by omega) (by omega)
    nat_digits (n / 10) ++ [48 + n % 10]

/-- Decimal byte representation of an integer. -/
def int_bytes (n : Int) : List Nat :=
  if n < 0 then 45 :: nat_digits n.natAbs else nat_digits n.natAbs

/-- JSON string escaping (quotes and backslashes; the exercised strings
contain no control characters). -/
def json_escape (bs : List Nat) : List Nat :=
  bs.flatMap (fun c => if c = 34 ∨ c = 92 then [92, c] else [c])

mutual

/-- Model of `serde_json::to_vec` (compact printing, objects already sorted
by key as in serde's `BTreeMap`). -/
def json_print : JValue → List Nat
  | .null => str_bytes "null"
  | .bool true => str_bytes "true"
  | .bool false => str_bytes "false"
  | .num n => int_bytes n
  | .str s => 34 :: json_escape (str_bytes s) ++ [34]
  | .arr xs => 91 :: json_print_arr xs ++ [93]
  | .obj fs => 123 :: json_print_obj fs ++ [125]

/-- Comma-separated printing of array elements. -/
def json_print_arr : List JValue → List Nat
  | [] => []
  | [x] => json_print x
  | x :: xs => json_print x ++ 44 :: json_print_arr xs

/-- Comma-separated printing of object fields. -/
def json_print_obj : List (String × JValue) → List Nat
  | [] => []
  | [(k, v)] => 34 :: json_escape (str_bytes k) ++ [34, 58] ++ json_print v
  | (k, v) :: fs =>
    34 :: json_escape (str_bytes k) ++ [34, 58] ++ json_print v
      ++ 44 :: json_print_obj fs

end

/-- JSON whitespace bytes. -/
def json_is_ws (c : Nat) : Bool :=
  c = 32 || c = 9 || c = 10 || c = 13

/-- Skip leading JSON whitespace. -/
def json_skip_ws (bs : List Nat) : List Nat :=
  bs.dropWhile json_is_ws

/-- Parse the remainder of a JSON string literal (after the opening quote),
handling the single-character escapes; unicode escapes are not modelled. -/
def json_parse_string : Nat → List Nat → List Nat → Option (String × List Nat)
  | 0, _, _ => none
  | _ + 1, _, [] => none
  | fuel + 1, acc, c :: rest =>
    if c = 34 then some (⟨(acc.reverse).map Char.ofNat⟩, rest)
    else if c = 92 then
      match rest with
      | [] => none
      | e :: rest2 =>
        let dec : Option Nat :=
          if e = 34 then some 34 else if e = 92 then some 92
          else if e = 47 then some 47 else if e = 110 then some 10
          else if e = 116 then some 9 else if e = 114 then some 13
          else if e = 98 then some 8 else if e = 102 then some 12
          else none
        match dec with
        | some d => json_parse_string fuel (d :: acc) rest2
        | none => none
    else json_parse_string fuel (c :: acc) rest

/-- Parse a JSON integer (optional minus sign, digit run). Fractional and
exponent forms are not modelled; no exercised configuration uses them. -/
def json_parse_int (bs : List Nat) : Option (Int × List Nat) :=
  let (neg, bs') : Bool × List Nat :=
    match bs with
    | 45 :: rest => (true, rest)
    | _ => (false, bs)
  let digits := bs'.takeWhile (fun c => 48 ≤ c && c ≤ 57)
  if digits = [] then none
  else
    let v : Nat := digits.foldl (fun acc d => acc * 10 + (d - 48)) 0
    some (if neg then -(v : Int) else (v : Int), bs'.drop digits.length)

mutual

/-- Model of serde_json's recursive-descent value parser (fuel-indexed; the
fuel passed by `json_from_slice` always suffices for the inputs exercised,
and exhaustion is reported as a parse failure). -/
def json_parse_value : Nat → List Nat → Option (JValue × List Nat)
  | 0, _ => none
  | fuel + 1, bs =>
    match json_skip_ws bs with
    | [] => none
    | c :: rest =>
      if c = 110 then
        match rest with
        | 117 :: 108 :: 108 :: r => some (.null, r)
        | _ => none
      else if c = 116 then
        match rest with
        | 114 :: 117 :: 101 :: r => some (.bool true, r)
        | _ => none
      else if c = 102 then
        match rest with
        | 97 :: 108 :: 115 :: 101 :: r => some (.bool false, r)
        | _ => none
      else if c = 34 then
        match json_parse_string fuel [] rest with
        | some (s, r) => some (.str s, r)
        | none => none
      else if c = 91 then
        match json_skip_ws rest with
        | 93 :: r => some (.arr [], r)
        | other =>
          match json_parse_list fuel other with
          | some (xs, r) => some (.arr xs, r)
          | none => none
      else if c = 123 then
        match json_skip_ws rest with
        | 125 :: r => some (.obj [], r)
        | other =>
          match json_parse_fields fuel other with
          | some (fs, r) => some (.obj fs, r)
          | none => none
      else
        match json_parse_int (c :: rest) with
        | some (n, r) => some (.num n, r)
        | none => none

/-- Parse one or more comma-separated array elements followed by `]`. -/
def json_parse_list : Nat → List Nat → Option (List JValue × List Nat)
  | 0, _ => none
  | fuel + 1, bs =>
    match json_parse_value fuel bs with
    | none => none
    | some (v, rest) =>
      match json_skip_ws rest with
      | 44 :: r =>
        match json_parse_list fuel r with
        | some (xs, r2) => some (v :: xs, r2)
        | none => none
      | 93 :: r => some ([v], r)
      | _ => none

/-- Parse one or more comma-separated object fields followed by a closing
brace. -/
def json_parse_fields : Nat → List Nat → Option (List (String × JValue) × List Nat)
  | 0, _ => none
  | fuel + 1, bs =>
    match json_skip_ws bs with
    | 34 :: rest =>
      match json_parse_string fuel [] rest with
      | none => none
      | some (k, rest2) =>
        match json_skip_ws rest2 with
        | 58 :: rest3 =>
          match json_parse_value fuel rest3 with
          | none => none
          | some (v, rest4) =>
            match json_skip_ws rest4 with
            | 44 :: r =>
              match json_parse_fields fuel r with
              | some (fs, r2) => some ((k, v) :: fs, r2)
              | none => none
            | 125 :: r => some ([(k, v)], r)
            | _ => none
        | _ => none
    | _ => none

end

/-- Model of `serde_json::from_slice`: parse one value and require only
whitespace to remain. -/
def json_from_slice (bs : List Nat) : VResult JValue :=
  match json_parse_value (bs.length + 1) bs with
  | some (v, rest) => if json_skip_ws rest = [] then .ok v else .error .json
  | none => .error .json

/-- Model of `github::Config`. -/
structure GhConfig where
  username : String
  access_token : String
  access_token_id : Nat
  repo_name : String
deriving DecidableEq

/-- Model of `github::sizeopt_string`: a 1-byte length for lengths below 255,
otherwise (after an `assert!` that the length fits a `u32`) a raw 4-byte
little-endian length; note that no marker byte distinguishes the two forms.
-/
def sizeopt_string (s : String) : VResult (List Nat) :=
  let len := (str_bytes s).length
  if len < 255 then .ok (len :: str_bytes s)
  else if len ≤ 0xFFFFFFFF then .ok (u32_le_bytes len ++ str_bytes s)
  else .error .panicked

/-- Model of `github::read_sizeopt_string`. Faithful to the source: when
`s[0] == 255` the length is the single byte 255 and one byte is consumed;
otherwise the length is read as a `u32` from bytes 1..5 and five bytes are
consumed. Out-of-range indexing is the `panicked` abort. -/
def read_sizeopt_string (s : List Nat) : VResult (String × Nat) := do
  match s with
  | [] => throw .panicked
  | b0 :: _ => do
    let (len, index) ←
      if b0 = 255 then pure (255, 1)
      else
        match s with
        | _ :: b1 :: b2 :: b3 :: b4 :: _ => pure (u32_from_le b1 b2 b3 b4, 5)
        | _ => throw .panicked
    if index + len ≤ s.length then
      let str ← bytes_to_ascii ((s.drop index).take len)
      pure (str, index + len)
    else throw .panicked

/-- Lowercase hex digit byte. -/
def hex_digit_byte (n : Nat) : Nat :=
  if n < 10 then 48 + n else 87 + n

/-- Model of `github::hex_string`: each byte printed with `format!("{:x}")`,
which does NOT zero-pad (a byte below 16 contributes one digit). -/
def hex_string (data : List Nat) : String :=
  ⟨(data.flatMap (fun b =>
      if b < 16 then [hex_digit_byte b]
      else [hex_digit_byte (b / 16), hex_digit_byte (b % 16)])).map Char.ofNat⟩

/-- Value of a hex digit byte (`u8::from_str_radix(.., 16)` accepts both
cases). -/
def hex_val (c : Nat) : Option Nat :=
  if 48 ≤ c ∧ c ≤ 57 then some (c - 48)
  else if 97 ≤ c ∧ c ≤ 102 then some (c - 87)
  else if 65 ≤ c ∧ c ≤ 70 then some (c - 55)
  else none

/-- Pack pairs of hex digit bytes into bytes (`chunks_exact(2)` with
`from_str_radix(..).unwrap()`, which aborts on a non-hex digit); a trailing
odd byte is ignored by `chunks_exact`. -/
def hex_pairs : List Nat → VResult (List Nat)
  | [] => .ok []
  | [_] => .ok []
  | a :: b :: rest => do
    match hex_val a, hex_val b with
    | some x, some y => pure ((x * 16 + y) :: (← hex_pairs rest))
    | _, _ => throw .panicked

/-- Model of `github::Config::compress`: `assert_eq!` that the token is 40
characters, pack it to 20 raw bytes, then length-prefixed username and
repository name, token bytes, and the 8-byte little-endian token id. -/
def GhConfig.compress (c : GhConfig) : VResult (List Nat) := do
  if (str_bytes c.access_token).length = 40 then
    let token_bytes ← hex_pairs (str_bytes c.access_token)
    let us ← sizeopt_string c.username
    let rs ← sizeopt_string c.repo_name
    pure (us ++ rs ++ token_bytes ++ u64_le_bytes (c.access_token_id % 2 ^ 64))
  else throw .panicked

/-- Model of `github::Config::decompress`: two length-prefixed strings, 20
token bytes re-hexed with `hex_string`, and the 8-byte token id; all slicing
out of range is an abort. -/
def GhConfig.decompress (data : List Nat) : VResult GhConfig := do
  let (username, l1) ← read_sizeopt_string data
  let (repo_name, l2) ← read_sizeopt_string (data.drop l1)
  let index := l1 + l2
  if index + 20 ≤ data.length then
    let access_token := hex_string ((data.drop index).take 20)
    if index + 28 ≤ data.length then
      let access_token_id := u64_from_le ((data.drop (index + 20)).take 8)
      pure ⟨username, access_token, access_token_id, repo_name⟩
    else throw .panicked
  else throw .panicked

/-- Model of `serde_json::to_value` for `github::Config` (serde's object map
is a `BTreeMap`, so fields appear in key order). -/
def gh_to_value (c : GhConfig) : JValue :=
  .obj [("access_token", .str c.access_token),
        ("access_token_id", .num c.access_token_id),
        ("repo_name", .str c.repo_name),
        ("username", .str c.username)]

/-- Field lookup in an object value. -/
def jvalue_get (fields : List (String × JValue)) (key : String) : Option JValue :=
  (fields.find? (fun p => p.1 = key)).map Prod.snd

/-- Model of `serde_json::from_value::<github::Config>(..).unwrap()`:
extract the four fields, aborting on a missing field or a type mismatch. -/
def gh_from_value : JValue → VResult GhConfig
  | .obj fields =>
    match jvalue_get fields "username", jvalue_get fields "access_token",
        jvalue_get fields "access_token_id", jvalue_get fields "repo_name" with
    | some (.str u), some (.str t), some (.num i), some (.str r) =>
      if 0 ≤ i then .ok ⟨u, t, i.toNat, r⟩ else .error .panicked
    | _, _, _, _ => .error .panicked
  | _ => .error .panicked

/-- Model of `providers::Provider` (declaration order matters for
`Provider::iter`). -/
inductive Provider where
  | gitHub
  | fileSystem
  | mock
deriving DecidableEq

/-- The strum `tag` property of each provider. -/
def Provider.tag : Provider → Nat
  | .gitHub => 0
  | .fileSystem => 1
  | .mock => 2

/-- Model of `Provider::iter()` (declaration order). -/
def Provider.iter : List Provider :=
  [.gitHub, .fileSystem, .mock]

/-- Model of `Provider::configuration_compress`: GitHub substitutes its
bespoke packing; FileSystem and Mock use the default `serde_json::to_vec`. -/
def Provider.configuration_compress (p : Provider) (v : JValue) :
    VResult (List Nat) :=
  match p with
  | .gitHub => do (← gh_from_value v).compress
  | _ => .ok (json_print v)

/-- Model of `Provider::configuration_decompress`: GitHub uses its bespoke
unpacking; FileSystem and Mock use the default `serde_json::from_slice`. -/
def Provider.configuration_decompress (p : Provider) (data : List Nat) :
    VResult JValue :=
  match p with
  | .gitHub => do pure (gh_to_value (← GhConfig.decompress data))
  | _ => json_from_slice data

/-- Model of `config::SyncConfig`. -/
structure SyncConfig where
  service : Provider
  data : JValue

/-- Model of `SyncConfig::compress`: the provider tag byte followed by the
provider-compressed configuration. -/
def SyncConfig.compress (c : SyncConfig) : VResult (List Nat) := do
  pure (c.service.tag :: (← c.service.configuration_compress c.data))

/-- Loop body of `SyncConfig::decompress` over `Provider::iter()`. -/
def sync_config_decompress_go : List Provider → Nat → List Nat → VResult SyncConfig
  | [], _, _ => .error .synchronizationTransferString
  | p :: ps, t, rest =>
    if p.tag = t then do pure ⟨p, ← p.configuration_decompress rest⟩
    else sync_config_decompress_go ps t rest

/-- Model of `SyncConfig::decompress`: dispatch on the leading tag byte
(`data[0]` aborts when the payload is empty); an unknown tag is an invalid
transfer string. -/
def SyncConfig.decompress (data : List Nat) : VResult SyncConfig :=
  match data with
  | [] => .error .panicked
  | t :: rest => sync_config_decompress_go Provider.iter t rest

/-- The constant marker `"VPASS_"` of transfer strings. -/
def VPASS_MARKER : List Char :=
  "VPASS_".data

/-- Model of `transfer_string::encode`: compress the configuration, prepend
the serialized metadata record, base64-encode and add the marker. The
running package version is the explicit parameter `ver`. -/
def encode (ver : Nat × Nat) (c : SyncConfig) : VResult String := do
  let data ← c.compress
  let meta := Metadata.new ver data
  let compressed := metadata_serialize meta ++ data
  pure ⟨VPASS_MARKER ++ b64encode compressed⟩

/-- Model of `transfer_string::decode`: reject a missing marker,
base64-decode, split off the fixed 4-byte metadata record
(`&decoded[..size_of::<Metadata>()]` aborts when fewer than 4 bytes
decoded), check it, then dispatch the payload. -/
def decode (ver : Nat × Nat) (s : String) : VResult SyncConfig :=
  if s.data.take 6 = VPASS_MARKER then
    (b64decode (s.data.drop 6)).bind (fun decoded =>
      if 4 ≤ decoded.length then
        (metadata_deserialize (decoded.take 4)).bind (fun meta =>
          (meta.check ver (decoded.drop 4)).bind (fun _ =>
            SyncConfig.decompress (decoded.drop 4)))
      else .error .panicked)
  else .error .synchronizationTransferString

/-! ### Definitions supporting the verification -/

/-- Specification of the amended fork-point claim: the first zipped index at
which the two event sequences' timestamps disagree; if the zipped timestamps
all agree, `none` for equal lengths and the shorter length otherwise. -/
def differ_index_spec (A B : Book) : Option Nat :=
  match (A.events.zip B.events).findIdx? (fun p => p.1.time != p.2.time) with
  | some i => some i
  | none =>
    if A.events.length = B.events.length then none
    else some (min A.events.length B.events.length)

/-- A concrete item named "a" with no password. -/
def item_a : Item :=
  ⟨"a", none, ∅, []⟩

/-- A concrete item named "a" with password "x". -/
def item_x : Item :=
  ⟨"a", some "x", ∅, []⟩

/-- A concrete item named "a" with password "y". -/
def item_y : Item :=
  ⟨"a", some "y", ∅, []⟩

/-- A concrete item named "b". -/
def item_b : Item :=
  ⟨"b", none, ∅, []⟩

/-- A concrete item named "c". -/
def item_c : Item :=
  ⟨"c", none, ∅, []⟩

/-- A book exactly as built by `Book::add` twice (each add stamps its Create
and Update with one shared timestamp): "a" added at time 1, "b" at time 3. -/
def book_fork_b : Book :=
  ⟨[⟨1, .create 7⟩, ⟨1, .update 7 item_a⟩, ⟨3, .create 8⟩, ⟨3, .update 8 item_b⟩], 0⟩

/-- A book sharing `book_fork_b`'s two-event history, then adding "c" at
time 4 (again an internally tied Create/Update pair from `Book::add`). -/
def book_fork_c : Book :=
  ⟨[⟨1, .create 7⟩, ⟨1, .update 7 item_a⟩, ⟨4, .create 9⟩, ⟨4, .update 9 item_c⟩], 0⟩

/-- Shared history for the merge-symmetry counterexample: item 0 created and
initialized at time 1. -/
def common_events : List EventFrame :=
  [⟨1, .create 0⟩, ⟨1, .update 0 item_a⟩]

/-- Left book of the merge-symmetry counterexample: updates item 0 to
`item_x` at time 5. -/
def book_tie_x : Book :=
  ⟨common_events ++ [⟨5, .update 0 item_x⟩], 0⟩

/-- Right book of the merge-symmetry counterexample: updates item 0 to
`item_y`, also at time 5. -/
def book_tie_y : Book :=
  ⟨common_events ++ [⟨5, .update 0 item_y⟩], 0⟩

/-- A concrete GitHub provider configuration with a well-formed 40-hex-digit
access token. -/
def gh_star : GhConfig :=
  ⟨"ab", "aaaaaaaaaaaaaaaaaaaaaaaaaaaaaaaaaaaaaaaa", 7, "cd"⟩

/-- The corresponding `SyncConfig` for the GitHub provider. -/
def cfg_star : SyncConfig :=
  ⟨.gitHub, gh_to_value gh_star⟩

/-- A `SyncConfig` for the Mock provider (`interactive_setup` returns
`Value::Null` for Mock). -/
def cfg_mock : SyncConfig :=
  ⟨.mock, .null⟩

/-- A concrete remote book for the synchronize witness: shares origin 0 with
the empty local book and has one item. -/
def book_remote : Book :=
  ⟨[⟨1, .create 0⟩, ⟨1, .update 0 item_a⟩], 0⟩

/-- A concrete remote behavior whose read succeeds (returning the encrypted
`book_remote`) and whose update always rejects the write with a stale
`UpdateKey` error. -/
def remote_stale : RemoteBehavior :=
  ⟨.ok (.enc ((Vault.mk book_remote).encrypt "p" 3 4), [9]),
   fun _ _ => .error .invalidUpdateKey,
   fun _ => .error .invalidRemote⟩

/-! ### Theorems -/

/-- Sanity check of the CRC model against the published CRC-16/X-25 check
value for the bytes of `"123456789"`. -/
theorem crc16_x25_check_value : crc16_x25 (str_bytes "123456789") = 0x906E := by decide

/-- C3: for every content value and password (and any externally supplied
fresh salt and nonce), decrypting an encrypted vault with the same password
returns exactly the original value. -/
theorem vault_encrypt_decrypt_roundtrip {T : Type} [DecidableEq T] (c : T)
    (password : String) (salt : Salt) (nonce : Nonce) :
    ((Vault.mk c).encrypt password salt nonce).decrypt password = some (Vault.mk c) := by
  simp [Vault.encrypt, EncryptedVault.decrypt, secretbox_open, secretbox_seal,
    VaultKey.new, VaultKey.reconstruct]

/-- C4: for every content value and distinct passwords, decrypting with the
wrong password returns no value (in the ideal model of the authenticated
cipher, where forgery is impossible rather than computationally hard). -/
theorem vault_decrypt_wrong_password {T : Type} [DecidableEq T] (c : T)
    (p1 p2 : String) (h : p1 ≠ p2) (salt : Salt) (nonce : Nonce) :
    ((Vault.mk c).encrypt p1 salt nonce).decrypt p2 = none := by
  simp [Vault.encrypt, EncryptedVault.decrypt, secretbox_open, secretbox_seal,
    VaultKey.new, VaultKey.reconstruct, VaultKey.mk.injEq, h]

/-- Witness for C4 at concrete inputs. -/
theorem vault_decrypt_wrong_password_witness :
    ((Vault.mk (0 : Nat)).encrypt "a" 0 0).decrypt "b" = none :=
  vault_decrypt_wrong_password (0 : Nat) "a" "b" (by decide) 0 0

/-- C5: merging two books fails with the structured `DifferentOrigins` error
exactly when their creation timestamps differ; with equal creation
timestamps `merge_versions` always returns `Ok`. (The helper
`has_same_origin` returns the negation of what its name says, and
`merge_versions` compensates, so the composition is correct.) -/
theorem merge_versions_origin_check (A B : Book) :
    (A.created ≠ B.created → A.merge_versions B = .error .differentOrigins) ∧
    (A.created = B.created → ∃ C, A.merge_versions B = .ok C) := by
  constructor
  · intro h
    simp [Book.merge_versions, Book.has_same_origin, h]
  · intro h
    simp only [Book.merge_versions, Book.has_same_origin, h]
    simp [ne_eq, not_true, decide_not]
    cases A.differ_index B <;> exact ⟨_, rfl⟩

/-- Witness for C5: a pair of books with different origins is rejected, a
pair with equal origins merges without the origin error. -/
theorem merge_versions_origin_check_witness :
    (Book.mk [] 0).merge_versions (Book.mk [] 1) = .error .differentOrigins ∧
    ∃ C, (Book.mk [] 0).merge_versions (Book.mk [] 0) = .ok C :=
  ⟨(merge_versions_origin_check ⟨[], 0⟩ ⟨[], 1⟩).1 (by decide),
   (merge_versions_origin_check ⟨[], 0⟩ ⟨[], 0⟩).2 rfl⟩

/-- The first-differing-timestamp recursion agrees with `findIdx?` over the
zipped event lists (with an arbitrary start index). -/
theorem differ_index_go_eq_findIdx (s : List EventFrame) (o : List EventFrame) (i : Nat) :
    (s.zip o).findIdx? (fun p => p.1.time != p.2.time) i
      = (differ_index_go s o).map (· + i) := by
  induction s generalizing o i with
  | nil =>
    cases o <;> simp [differ_index_go, List.findIdx?_nil]
  | cons s ss ih =>
    cases o with
    | nil => simp [differ_index_go, List.findIdx?_nil]
    | cons o os =>
      rw [List.zip_cons_cons, List.findIdx?_cons]
      by_cases hst : s.time = o.time
      · rw [if_neg (by simp [hst]), ih os (i + 1)]
        show _ = ((if s.time ≠ o.time then some 0
          else (differ_index_go ss os).map (· + 1)).map (· + i))
        rw [if_neg (by simp [hst]), Option.map_map]
        cases differ_index_go ss os <;> simp <;> omega
      · rw [if_pos (by simpa using hst)]
        show _ = ((if s.time ≠ o.time then some 0
          else (differ_index_go ss os).map (· + 1)).map (· + i))
        rw [if_pos hst]
        simp

/-- C7 counterexample: two same-origin books whose event sequences disagree
at index 0 (different created ids) but whose timestamps agree, so
`differ_index` reports no fork point at all and `merge_versions` returns the
left book unchanged even though the books are different. -/
theorem differ_index_positional_counterexample :
    (Book.mk [⟨0, .create 0⟩] 0).events ≠ (Book.mk [⟨0, .create 1⟩] 0).events ∧
    ((Book.mk [⟨0, .create 0⟩] 0).events)[0]? ≠ ((Book.mk [⟨0, .create 1⟩] 0).events)[0]? ∧
    (Book.mk [⟨0, .create 0⟩] 0).differ_index (Book.mk [⟨0, .create 1⟩] 0) = none ∧
    (Book.mk [⟨0, .create 0⟩] 0).merge_versions (Book.mk [⟨0, .create 1⟩] 0)
      = .ok (Book.mk [⟨0, .create 0⟩] 0) := by
  decide

/-- C7 amended: the fork point is the first index at which the two event
sequences' TIMESTAMPS disagree (not the first index where the sequences
disagree); if the zipped timestamps all agree it is the shorter length when
the lengths differ, and `none` otherwise, in which case `merge_versions`
returns the left book unchanged (even when the event payloads differ). -/
theorem differ_index_amended (A B : Book) :
    A.differ_index B = differ_index_spec A B ∧
    (A.created = B.created → A.differ_index B = none → A.merge_versions B = .ok A) := by
  constructor
  · unfold Book.differ_index differ_index_spec
    rw [differ_index_go_eq_findIdx A.events B.events 0]
    cases differ_index_go A.events B.events <;> simp
  · intro h hnone
    simp only [Book.merge_versions, Book.has_same_origin, h, hnone]
    simp [ne_eq, not_true, decide_not]

/-- Witness for C7's amended theorem at concrete books (equal books, so the
fork point is `none` and merge returns the left book unchanged). -/
theorem differ_index_amended_witness :
    (Book.mk [⟨3, .create 0⟩] 2).differ_index (Book.mk [⟨3, .create 0⟩] 2)
      = differ_index_spec (Book.mk [⟨3, .create 0⟩] 2) (Book.mk [⟨3, .create 0⟩] 2) ∧
    (Book.mk [⟨3, .create 0⟩] 2).merge_versions (Book.mk [⟨3, .create 0⟩] 2)
      = .ok (Book.mk [⟨3, .create 0⟩] 2) :=
  ⟨(differ_index_amended _ _).1, (differ_index_amended _ _).2 rfl (by decide)⟩

/-- The first-differing-timestamp recursion is symmetric in its two lists. -/
theorem differ_index_go_symm (s : List EventFrame) (o : List EventFrame) :
    differ_index_go s o = differ_index_go o s := by
  induction s generalizing o with
  | nil => cases o <;> rfl
  | cons s ss ih =>
    cases o with
    | nil => rfl
    | cons o os =>
      show (if s.time ≠ o.time then some 0 else (differ_index_go ss os).map (· + 1))
        = (if o.time ≠ s.time then some 0 else (differ_index_go os ss).map (· + 1))
      rw [ih os]
      by_cases hst : s.time = o.time
      · simp [hst]
      · simp [hst, Ne.symm hst]

/-- `differ_index` is symmetric. -/
theorem differ_index_symm (A B : Book) : A.differ_index B = B.differ_index A := by
  unfold Book.differ_index
  rw [differ_index_go_symm]
  cases differ_index_go B.events A.events with
  | some i => rfl
  | none =>
    by_cases h : A.events.length = B.events.length
    · simp [h]
    · have h' : ¬ B.events.length = A.events.length := fun hc => h hc.symm
      simp [h, h', Nat.min_comm]

/-- When the recursion finds a first differing timestamp at `d`, both lists
are longer than `d` and all earlier zipped timestamps agree. -/
theorem differ_index_go_some_spec (s : List EventFrame) (o : List EventFrame) (d : Nat)
    (h : differ_index_go s o = some d) :
    d ≤ s.length ∧ d ≤ o.length ∧
      ∀ j < d, (s[j]?).map EventFrame.time = (o[j]?).map EventFrame.time := by
  induction s generalizing o d with
  | nil => cases o <;> simp [differ_index_go] at h
  | cons s ss ih =>
    cases o with
    | nil => simp [differ_index_go] at h
    | cons o os =>
      rw [show differ_index_go (s :: ss) (o :: os)
        = (if s.time ≠ o.time then some 0 else (differ_index_go ss os).map (· + 1))
        from rfl] at h
      by_cases hst : s.time = o.time
      · rw [if_neg (by simp [hst])] at h
        rcases Option.map_eq_some'.mp h with ⟨d', hd', rfl⟩
        obtain ⟨h1, h2, h3⟩ := ih os d' hd'
        refine ⟨by simpa using h1, by simpa using h2, ?_⟩
        intro j hj
        cases j with
        | zero => simpa using hst
        | succ j' =>
          simp only [List.getElem?_cons_succ]
          exact h3 j' (by omega)
      · rw [if_pos hst] at h
        cases h
        exact ⟨Nat.zero_le _, Nat.zero_le _, fun j hj => absurd hj (Nat.not_lt_zero j)⟩

/-- When the recursion finds no differing timestamp, all zipped timestamps
agree. -/
theorem differ_index_go_none_spec (s : List EventFrame) (o : List EventFrame)
    (h : differ_index_go s o = none) :
    ∀ j < min s.length o.length,
      (s[j]?).map EventFrame.time = (o[j]?).map EventFrame.time := by
  induction s generalizing o with
  | nil => intro j hj; simp at hj
  | cons s ss ih =>
    cases o with
    | nil => intro j hj; simp at hj
    | cons o os =>
      rw [show differ_index_go (s :: ss) (o :: os)
        = (if s.time ≠ o.time then some 0 else (differ_index_go ss os).map (· + 1))
        from rfl] at h
      by_cases hst : s.time = o.time
      · rw [if_neg (by simp [hst])] at h
        intro j hj
        cases j with
        | zero => simpa using hst
        | succ j' =>
          simp only [List.getElem?_cons_succ]
          exact ih os (by simpa using h) j' (by simp at hj; omega)
      · rw [if_pos hst] at h
        exact absurd h (by simp)

/-- Every index below a `some` fork point has agreeing timestamps, and the
fork point is within both logs. -/
theorem differ_index_some_props (A B : Book) (di : Nat)
    (h : A.differ_index B = some di) :
    di ≤ A.events.length ∧ di ≤ B.events.length ∧
      ∀ j < di, (A.events[j]?).map EventFrame.time = (B.events[j]?).map EventFrame.time := by
  unfold Book.differ_index at h
  cases hgo : differ_index_go A.events B.events with
  | some i =>
    rw [hgo] at h
    cases h
    exact differ_index_go_some_spec _ _ _ hgo
  | none =>
    rw [hgo] at h
    by_cases hl : A.events.length = B.events.length
    · simp [hl] at h
    · simp only [hl, if_false] at h
      cases h
      exact ⟨Nat.min_le_left _ _, Nat.min_le_right _ _,
        differ_index_go_none_spec _ _ hgo⟩

/-- A `none` fork point means equal lengths and all timestamps agreeing. -/
theorem differ_index_none_props (A B : Book)
    (h : A.differ_index B = none) :
    A.events.length = B.events.length ∧
      ∀ j < A.events.length,
        (A.events[j]?).map EventFrame.time = (B.events[j]?).map EventFrame.time := by
  unfold Book.differ_index at h
  cases hgo : differ_index_go A.events B.events with
  | some i => rw [hgo] at h; cases h
  | none =>
    rw [hgo] at h
    by_cases hl : A.events.length = B.events.length
    · refine ⟨hl, fun j hj => ?_⟩
      exact differ_index_go_none_spec _ _ hgo j (by omega)
    · simp [hl] at h

/-- Pointwise-equal elements below `n` give equal `take n`s. -/
theorem take_eq_of_agree (la lb : List EventFrame) (n : Nat)
    (h : ∀ j < n, la[j]? = lb[j]?) :
    la.take n = lb.take n := by
  apply List.ext_getElem?
  intro j
  rw [List.getElem?_take, List.getElem?_take]
  by_cases hj : j < n
  · simp only [hj, if_true]
    exact h j hj
  · simp [hj]

/-- When the recursion finds a first differing timestamp at `d`, the frames
at `d` exist and their timestamps differ. -/
theorem differ_index_go_some_diff (s : List EventFrame) (o : List EventFrame) (d : Nat)
    (h : differ_index_go s o = some d) :
    ∃ fa fb, s[d]? = some fa ∧ o[d]? = some fb ∧ fa.time ≠ fb.time := by
  induction s generalizing o d with
  | nil => cases o <;> simp [differ_index_go] at h
  | cons s ss ih =>
    cases o with
    | nil => simp [differ_index_go] at h
    | cons o os =>
      rw [show differ_index_go (s :: ss) (o :: os)
        = (if s.time ≠ o.time then some 0 else (differ_index_go ss os).map (· + 1))
        from rfl] at h
      by_cases hst : s.time = o.time
      · rw [if_neg (by simp [hst])] at h
        rcases Option.map_eq_some'.mp h with ⟨d', hd', rfl⟩
        obtain ⟨fa, fb, hfa, hfb, hne⟩ := ih os d' hd'
        exact ⟨fa, fb, by simpa using hfa, by simpa using hfb, hne⟩
      · rw [if_pos hst] at h
        cases h
        exact ⟨s, o, by simp, by simp, hst⟩

/-- A `some di` fork point arises either from a genuine timestamp
disagreement at index `di`, or from a timestamp-agreeing zip with unequal
lengths, with `di` the shorter length. -/
theorem differ_index_some_cases (A B : Book) (di : Nat)
    (h : A.differ_index B = some di) :
    (∃ fa fb, A.events[di]? = some fa ∧ B.events[di]? = some fb ∧ fa.time ≠ fb.time)
    ∨ (di = min A.events.length B.events.length ∧
        A.events.length ≠ B.events.length) := by
  unfold Book.differ_index at h
  cases hgo : differ_index_go A.events B.events with
  | some i =>
    rw [hgo] at h
    cases h
    exact Or.inl (differ_index_go_some_diff _ _ _ hgo)
  | none =>
    rw [hgo] at h
    by_cases hl : A.events.length = B.events.length
    · simp [hl] at h
    · simp only [hl, if_false] at h
      cases h
      exact Or.inr ⟨rfl, hl⟩

/-- Membership in a deeper drop gives membership in a shallower one. -/
theorem mem_drop_of_ge (l : List EventFrame) (n di : Nat) (hnd : n ≤ di)
    (a : EventFrame) (ha : a ∈ l.drop di) : a ∈ l.drop n := by
  have hdd : l.drop di = (l.drop n).drop (di - n) := by
    rw [List.drop_drop]
    congr 1
    omega
  rw [hdd] at ha
  exact List.mem_of_mem_drop ha

/-- Stable insertion of two frames with different timestamps commutes on any
list: the one with the smaller timestamp ends up first either way, so the
insertion order does not matter. -/
theorem orderedInsert_time_comm (x y : EventFrame) (h : x.time ≠ y.time)
    (s : List EventFrame) :
    List.orderedInsert timeLE x (List.orderedInsert timeLE y s)
      = List.orderedInsert timeLE y (List.orderedInsert timeLE x s) := by
  induction s with
  | nil =>
    by_cases h1 : timeLE x y
    · have h2 : ¬ timeLE y x := fun hc => h (Nat.le_antisymm h1 hc)
      simp [List.orderedInsert, h1, h2]
    · have h2 : timeLE y x := Nat.le_of_not_le h1
      simp [List.orderedInsert, h1, h2]
  | cons c cs ih =>
    by_cases hyc : timeLE y c <;> by_cases hxc : timeLE x c
    · by_cases hxy : timeLE x y
      · have hyx : ¬ timeLE y x := fun hc => h (Nat.le_antisymm hxy hc)
        simp [List.orderedInsert, hyc, hxc, hxy, hyx]
      · have hyx : timeLE y x := Nat.le_of_not_le hxy
        simp [List.orderedInsert, hyc, hxc, hxy, hyx]
    · have hxy : ¬ timeLE x y := fun hc => hxc (Nat.le_trans hc hyc)
      have hyx : timeLE y x :=
        Nat.le_of_lt (Nat.lt_of_le_of_lt hyc (Nat.lt_of_not_le hxc))
      simp [List.orderedInsert, hyc, hxc, hxy, hyx]
    · have hxy : timeLE x y :=
        Nat.le_of_lt (Nat.lt_of_le_of_lt hxc (Nat.lt_of_not_le hyc))
      have hyx : ¬ timeLE y x := fun hc => hyc (Nat.le_trans hc hxc)
      simp [List.orderedInsert, hyc, hxc, hxy, hyx]
    · simp [List.orderedInsert, hyc, hxc, ih]

/-- The stable sort of a cons is an ordered insertion into the sorted tail.
-/
theorem sortEvents_cons (x : EventFrame) (l : List EventFrame) :
    sortEvents (x :: l) = List.orderedInsert timeLE x (sortEvents l) :=
  rfl

/-- Inserting a frame from the middle of a concatenation commutes with the
stable sort when its timestamp differs from every frame to its left. -/
theorem sortEvents_middle (x : EventFrame) (l2 : List EventFrame)
    (l1 : List EventFrame) (h : ∀ b ∈ l2, x.time ≠ b.time) :
    sortEvents (l2 ++ x :: l1)
      = List.orderedInsert timeLE x (sortEvents (l2 ++ l1)) := by
  induction l2 with
  | nil => rfl
  | cons y l2' ih =>
    have hxy : x.time ≠ y.time := h y (List.mem_cons_self y l2')
    calc sortEvents ((y :: l2') ++ x :: l1)
        = List.orderedInsert timeLE y (sortEvents (l2' ++ x :: l1)) := rfl
      _ = List.orderedInsert timeLE y
            (List.orderedInsert timeLE x (sortEvents (l2' ++ l1))) := by
          rw [ih (fun b hb => h b (List.mem_cons_of_mem y hb))]
      _ = List.orderedInsert timeLE x
            (List.orderedInsert timeLE y (sortEvents (l2' ++ l1))) :=
          (orderedInsert_time_comm x y hxy _).symm
      _ = List.orderedInsert timeLE x (sortEvents ((y :: l2') ++ l1)) := rfl

/-- The stable sort of a concatenation is order-insensitive when the two
parts have no timestamp in common; ties WITHIN each part are allowed, since
a stable sort keeps their relative order either way. -/
theorem sortEvents_append_comm_of_disjoint (l1 l2 : List EventFrame)
    (Hd : ∀ a ∈ l1, ∀ b ∈ l2, a.time ≠ b.time) :
    sortEvents (l1 ++ l2) = sortEvents (l2 ++ l1) := by
  induction l1 with
  | nil => simp
  | cons x l1' ih =>
    have hx : ∀ b ∈ l2, x.time ≠ b.time :=
      fun b hb => Hd x (List.mem_cons_self x l1') b hb
    calc sortEvents ((x :: l1') ++ l2)
        = List.orderedInsert timeLE x (sortEvents (l1' ++ l2)) := rfl
      _ = List.orderedInsert timeLE x (sortEvents (l2 ++ l1')) := by
          rw [ih (fun a ha => Hd a (List.mem_cons_of_mem x ha))]
      _ = sortEvents (l2 ++ x :: l1') := (sortEvents_middle x l2 l1' hx).symm

/-- C6 counterexample: two same-origin books whose divergent edits carry
equal timestamps. The merge result depends on the direction: each direction
keeps its own side's update, so the live `(name, secret, tags, notes)`
tuples differ. -/
theorem merge_symmetry_counterexample :
    book_tie_x.created = book_tie_y.created ∧
    (book_tie_x.merge_versions book_tie_y).map Book.items
      ≠ (book_tie_y.merge_versions book_tie_x).map Book.items := by
  decide

/-- C6 amended: `merge_versions` is direction-insensitive (identical result
books, hence identical live item tuples) for any same-origin books that
share a common log prefix (of any length `n`) and whose divergent suffixes
beyond it have no timestamp in common ACROSS the two books. Ties within one
book — in particular the equal-timestamp Create/Update pair every
`Book::add` appends — are allowed, so the hypothesis is satisfiable by
books built through the program's own API. When two divergent events of the
two books share a timestamp the tie resolves local-before-remote and the
directions can differ. -/
theorem merge_versions_symmetric (A B : Book) (n : Nat) (hor : A.created = B.created)
    (htake : A.events.take n = B.events.take n)
    (Hd : ∀ f1 ∈ A.events.drop n, ∀ f2 ∈ B.events.drop n, f1.time ≠ f2.time) :
    A.merge_versions B = B.merge_versions A := by
  have hpt : ∀ j < n, A.events[j]? = B.events[j]? := by
    intro j hj
    have hc := congrArg (fun l => l[j]?) htake
    simpa [List.getElem?_take, hj] using hc
  have hminlen : min n A.events.length = min n B.events.length := by
    have hc := congrArg List.length htake
    simpa [List.length_take] using hc
  have hmemA : ∀ j fa, n ≤ j → A.events[j]? = some fa → fa ∈ A.events.drop n := by
    intro j fa hnj hj
    apply List.getElem?_mem (n := j - n)
    rw [List.getElem?_drop]
    rwa [Nat.add_sub_cancel' hnj]
  have hmemB : ∀ j fb, n ≤ j → B.events[j]? = some fb → fb ∈ B.events.drop n := by
    intro j fb hnj hj
    apply List.getElem?_mem (n := j - n)
    rw [List.getElem?_drop]
    rwa [Nat.add_sub_cancel' hnj]
  have hcontra : ∀ j, n ≤ j → j < A.events.length → j < B.events.length →
      (A.events[j]?).map EventFrame.time = (B.events[j]?).map EventFrame.time →
      False := by
    intro j hnj hja hjb ht
    have hfa : A.events[j]? = some A.events[j] := List.getElem?_eq_some.mpr ⟨hja, rfl⟩
    have hfb : B.events[j]? = some B.events[j] := List.getElem?_eq_some.mpr ⟨hjb, rfl⟩
    rw [hfa, hfb] at ht
    have hte : (A.events[j]).time = (B.events[j]).time := by simpa using ht
    exact Hd _ (hmemA j _ hnj hfa) _ (hmemB j _ hnj hfb) hte
  unfold Book.merge_versions
  have ho1 : A.has_same_origin B = false := by
    simp [Book.has_same_origin, hor]
  have ho2 : B.has_same_origin A = false := by
    simp [Book.has_same_origin, hor]
  rw [ho1, ho2]
  simp only [Bool.false_eq_true, if_false]
  rw [← differ_index_symm A B]
  cases hdi : A.differ_index B with
  | none =>
    obtain ⟨hlen, htimes⟩ := differ_index_none_props A B hdi
    have hev : A.events = B.events := by
      apply List.ext_getElem?
      intro j
      by_cases hj : j < A.events.length
      · by_cases hjn : j < n
        · exact hpt j hjn
        · exact absurd (htimes j hj) (fun ht =>
            hcontra j (by omega) hj (by omega) ht)
      · rw [List.getElem?_eq_none (by omega), List.getElem?_eq_none (by omega)]
    have hab : A = B := by
      cases A; cases B
      simp_all
    rw [hab]
  | some di =>
    obtain ⟨hda, hdb, htimes⟩ := differ_index_some_props A B di hdi
    have hndi : n ≤ di := by
      by_contra hlt
      push_neg at hlt
      rcases differ_index_some_cases A B di hdi with ⟨fa, fb, hfa, hfb, hne⟩ | ⟨hmin, hlen⟩
      · have hj := hpt di hlt
        rw [hfa, hfb] at hj
        exact hne (by rw [Option.some.inj hj])
      · omega
    have htakedi : A.events.take di = B.events.take di := by
      apply take_eq_of_agree
      intro j hj
      by_cases hjn : j < n
      · exact hpt j hjn
      · exact absurd (htimes j hj) (fun ht =>
          hcontra j (by omega) (by omega) (by omega) ht)
    have hsort : sortEvents (A.events.drop di ++ B.events.drop di)
        = sortEvents (B.events.drop di ++ A.events.drop di) := by
      apply sortEvents_append_comm_of_disjoint
      intro f1 h1 f2 h2
      exact Hd f1 (mem_drop_of_ge _ n di hndi f1 h1)
        f2 (mem_drop_of_ge _ n di hndi f2 h2)
    show Except.ok (Book.clean ⟨A.events.take di
        ++ sortEvents (A.events.drop di ++ B.events.drop di), A.created⟩)
      = Except.ok (Book.clean ⟨B.events.take di
        ++ sortEvents (B.events.drop di ++ A.events.drop di), B.created⟩)
    rw [htakedi, hsort, hor]

/-- Witness for C6's amended theorem on books the program itself builds:
both logs start with the `Book::add` pair of "a" at time 1 (an internal
Create/Update timestamp tie), then one adds "b" at time 3 and the other "c"
at time 4 — the 2-frame prefix is shared and the divergent suffixes share
no timestamp across the books. -/
theorem merge_versions_symmetric_witness :
    book_fork_b.merge_versions book_fork_c
      = book_fork_c.merge_versions book_fork_b :=
  merge_versions_symmetric book_fork_b book_fork_c 2 rfl (by decide) (by decide)

/-- C8 counterexample: after add "a" (id 0, time 10), remove (time 20), add
"a" again (id 1, time 30), `read_item` on the removed id 0 still returns the
stale item — the backward scan looks only for `Update` events and never
consults `Remove` — contradicting "reading id0 yields no item". -/
theorem read_item_after_readd_counterexample :
    Book.add ⟨[], 0⟩ item_a 0 10
      = .ok (⟨[⟨10, .create 0⟩, ⟨10, .update 0 item_a⟩], 0⟩, 0) ∧
    Book.remove ⟨[⟨10, .create 0⟩, ⟨10, .update 0 item_a⟩], 0⟩ "a" 20
      = .ok ⟨[⟨10, .create 0⟩, ⟨10, .update 0 item_a⟩, ⟨20, .remove 0⟩], 0⟩ ∧
    Book.add ⟨[⟨10, .create 0⟩, ⟨10, .update 0 item_a⟩, ⟨20, .remove 0⟩], 0⟩ item_a 1 30
      = .ok (⟨[⟨10, .create 0⟩, ⟨10, .update 0 item_a⟩, ⟨20, .remove 0⟩,
          ⟨30, .create 1⟩, ⟨30, .update 1 item_a⟩], 0⟩, 1) ∧
    Book.read_item ⟨[⟨10, .create 0⟩, ⟨10, .update 0 item_a⟩, ⟨20, .remove 0⟩,
        ⟨30, .create 1⟩, ⟨30, .update 1 item_a⟩], 0⟩ 0
      = .ok (some item_a) := by
  decide

/-- C8 amended: adding an item, removing it by name and re-adding the same
name (with the environment-supplied fresh id `id1 ≠ id0`) succeeds; the new
id's metadata carries the second add's timestamp as its created time; the
old id is no longer live (absent from `item_ids`, hence unreachable through
`items`/name lookup); but `read_item` on the old id still returns its last
update rather than no item. -/
theorem add_remove_readd (c t0 t1 t2 : Time) (id0 id1 : ItemId) (it : Item)
    (h : id1 ≠ id0) :
    ∃ b1 b2 b3 : Book,
      Book.add ⟨[], c⟩ it id0 t0 = .ok (b1, id0) ∧
      b1.remove it.name t2 = .ok b2 ∧
      b2.add it id1 t1 = .ok (b3, id1) ∧
      b3.read_item_metadata id1 = some ⟨t1, t1⟩ ∧
      id0 ∉ b3.item_ids ∧
      b3.read_item id0 = .ok (some it) := by
  refine ⟨⟨[⟨t0, .create id0⟩, ⟨t0, .update id0 it⟩], c⟩,
    ⟨[⟨t0, .create id0⟩, ⟨t0, .update id0 it⟩, ⟨t2, .remove id0⟩], c⟩,
    ⟨[⟨t0, .create id0⟩, ⟨t0, .update id0 it⟩, ⟨t2, .remove id0⟩,
      ⟨t1, .create id1⟩, ⟨t1, .update id1 it⟩], c⟩, ?_, ?_, ?_, ?_, ?_, ?_⟩
  · rfl
  · simp [Book.remove, Book.get_id_by_name, Book.find_id_by_name, Book.id_items,
      Book.item_ids, Book.all_ids, Book.removed_ids, Book.read_item, read_item_go,
      List.mapM, List.mapM.loop, List.find?, bind, Except.bind, pure, Except.pure]
  · simp [Book.add, Book.verify_not_exists, Book.has_item, Book.find_id_by_name,
      Book.id_items, Book.item_ids, Book.all_ids, Book.removed_ids,
      Book.read_item, read_item_go, EventFrame.creates_id, EventFrame.removes_id,
      Event.creates_id, Event.removes_id,
      List.mapM, List.mapM.loop, bind, Except.bind, pure, Except.pure]
  · simp [Book.read_item_metadata, read_item_metadata_go, h, Ne.symm h]
  · simp [Book.item_ids, Book.all_ids, Book.removed_ids, List.mem_filter,
      List.mem_dedup, List.mem_filterMap, EventFrame.creates_id,
      EventFrame.removes_id, Event.creates_id, Event.removes_id, h, Ne.symm h]
  · simp [Book.read_item, read_item_go, h]

/-- Witness for C8's amended theorem at concrete inputs. -/
theorem add_remove_readd_witness :
    ∃ b1 b2 b3 : Book,
      Book.add ⟨[], 0⟩ item_a 0 10 = .ok (b1, 0) ∧
      b1.remove item_a.name 20 = .ok b2 ∧
      b2.add item_a 1 30 = .ok (b3, 1) ∧
      b3.read_item_metadata 1 = some ⟨30, 30⟩ ∧
      0 ∉ b3.item_ids ∧
      b3.read_item 0 = .ok (some item_a) :=
  add_remove_readd 0 10 30 20 0 1 item_a (by decide)

/-- C1: for every provider behavior (including stale-`UpdateKey` rejections
and transport errors), local book, password and random inputs:
if `synchronize` returns an error the local book is exactly unchanged, and
the local book changes only when the remote `update` call returned success,
in which case it becomes exactly the merged book that was pushed. -/
theorem synchronize_atomic (sp : RemoteBehavior) (book : Book) (password : String)
    (salt : Salt) (nonce : Nonce) :
    (∀ e, (synchronize sp book password salt nonce).1 = .error e →
      (synchronize sp book password salt nonce).2 = book) ∧
    ((synchronize sp book password salt nonce).2 = book ∨
      ∃ old uk b_old b_new data,
        sp.read = .ok (old, uk) ∧
        decrypt old password = .ok b_old ∧
        b_old.merge_versions book = .ok b_new ∧
        encrypt password b_new salt nonce = .ok data ∧
        sp.update data uk = .ok () ∧
        (synchronize sp book password salt nonce).1 = .ok () ∧
        (synchronize sp book password salt nonce).2 = b_new) := by
  have key : (synchronize sp book password salt nonce).2 = book ∨
      ∃ old uk b_old b_new data,
        sp.read = .ok (old, uk) ∧
        decrypt old password = .ok b_old ∧
        b_old.merge_versions book = .ok b_new ∧
        encrypt password b_new salt nonce = .ok data ∧
        sp.update data uk = .ok () ∧
        (synchronize sp book password salt nonce).1 = .ok () ∧
        (synchronize sp book password salt nonce).2 = b_new := by
    unfold synchronize
    split
    · split
      · exact Or.inl rfl
      · split
        · split
          · exact Or.inl rfl
          · split
            · exact Or.inl rfl
            · split
              · exact Or.inl rfl
              · right
                exact ⟨_, _, _, _, _, by assumption, by assumption, by assumption,
                  by assumption, by assumption, rfl, rfl⟩
        · exact Or.inl rfl
    · split
      · exact Or.inl rfl
      · split
        · exact Or.inl rfl
        · exact Or.inl rfl
    · exact Or.inl rfl
  rcases key with hk | hk
  · exact ⟨fun _ _ => hk, Or.inl hk⟩
  · obtain ⟨old, uk, b_old, b_new, data, h1, h2, h3, h4, h5, h6, h7⟩ := hk
    refine ⟨fun e he => ?_, Or.inr ⟨old, uk, b_old, b_new, data, h1, h2, h3, h4, h5, h6, h7⟩⟩
    rw [h6] at he
    exact Except.noConfusion he

/-- Witness for C1: a concrete synchronize run in which the remote rejects
the write with a stale `UpdateKey`; the error propagates and the local book
is unchanged. -/
theorem synchronize_atomic_witness :
    (synchronize remote_stale ⟨[], 0⟩ "p" 5 6).2 = ⟨[], 0⟩ :=
  (synchronize_atomic remote_stale ⟨[], 0⟩ "p" 5 6).1
    (.sync .invalidUpdateKey) (by decide)

/-- C2 (code-bug evidence): the full transfer round trip of a well-formed
GitHub configuration is a fatal out-of-range slice, not the original
configuration: `read_sizeopt_string` misreads the writer's 1-byte length
prefix (its branches treat `s[0] == 255` as the 1-byte form and everything
else as a 5-byte form that the writer never emits). -/
theorem github_transfer_roundtrip_fatal :
    (encode (0, 2) cfg_star).bind (decode (0, 2)) = .error .panicked ∧
    (encode (0, 2) cfg_star).bind (decode (0, 2)) ≠ .ok cfg_star := by
  have h : (encode (0, 2) cfg_star).bind (decode (0, 2)) = .error .panicked := by rfl
  exact ⟨h, by rw [h]; exact fun hc => Except.noConfusion hc⟩

/-- C9 (code-bug evidence): a transfer string produced by package version
0.3 is accepted by a decoder running version 0.2 — the payload is dispatched
to the Mock provider and decodes successfully — instead of failing with the
version-mismatch error, because `Metadata::check` raises that error only
when the major versions differ AND the minor versions are equal. -/
theorem decode_version_mismatch_not_reported :
    (encode (0, 3) cfg_mock).bind (decode (0, 2)) = .ok cfg_mock ∧
    ∀ mj mn : Nat, (encode (0, 3) cfg_mock).bind (decode (0, 2))
      ≠ .error (.synchronizationTransferStringVersion mj mn) := by
  have h : (encode (0, 3) cfg_mock).bind (decode (0, 2)) = .ok cfg_mock := by rfl
  exact ⟨h, fun mj mn => by rw [h]; exact fun hc => Except.noConfusion hc⟩

/-- C10: whenever a transfer string carries the marker and its base64
payload decodes to fewer than 4 bytes, `decode` is a fatal out-of-range
slice (`&decoded[..size_of::<Metadata>()]`), not a structured error. -/
theorem decode_short_payload_fatal (ver : Nat × Nat) (s : String) (bs : List Nat)
    (h1 : s.data.take 6 = VPASS_MARKER) (h2 : b64decode (s.data.drop 6) = .ok bs)
    (h3 : bs.length < 4) :
    decode ver s = .error .panicked := by
  unfold decode
  rw [if_pos h1, h2]
  show (if 4 ≤ bs.length then _ else Except.error Error.panicked) = _
  rw [if_neg (by omega)]

/-- Witness for C10 at the concrete string `"VPASS_abcd"`, whose base64
payload decodes to 3 bytes. -/
theorem decode_short_payload_fatal_witness :
    decode (0, 2) "VPASS_abcd" = .error .panicked :=
  decode_short_payload_fatal (0, 2) "VPASS_abcd" [105, 183, 29]
    (by decide) (by decide) (by decide)

end VPass
